import Mathlib

/-!
Verification of the smartrecover risk service (src/risk_service) against its
specification. The development embeds, in order:

* the CPython heapq primitives used by bulk_processor.py (siftup, siftdown,
  heapify, heappop) over lists of (neg_priority, debtor_id) entries with
  Python tuple ordering;
* the RiskScorer normalization, weighting and level bucketing
  (risk_scorer.py);
* the BulkProcessor queue build, batch loop, statistics and notification
  delegation (bulk_processor.py);
* the SQSMessenger payload construction and count reporting
  (sqs_messenger.py).

Machine floats and Decimals are modelled as rationals, database ids as
integers.  Fallible effects (ORM fetch, score upsert) are modelled with
Option/Except fields on the embedded records.
-/

deriving instance DecidableEq for Except

namespace SmartRecover

/-- A heap entry: Python tuple (neg_priority, debtor_id). -/
abbrev Entry : Type := ℚ × ℤ

/-- Python tuple comparison on (neg_priority, debtor_id): lexicographic. -/
def entLt (a b : Entry) : Prop := a.1 < b.1 ∨ (a.1 = b.1 ∧ a.2 < b.2)

instance (a b : Entry) : Decidable (entLt a b) := by unfold entLt; infer_instance

/-- Non-strict tuple order, defined as Python does via negation of lt. -/
def entLe (a b : Entry) : Prop := ¬ entLt b a

instance (a b : Entry) : Decidable (entLe a b) := by unfold entLe; infer_instance

/-- Total list indexing standing for Python heap[i]; all uses are in bounds. -/
def hget (l : List Entry) (i : Nat) : Entry := l.getD i (0, 0)

/-- The child index selected by the body of the while loop of heapq._siftup:
    the right child when it exists and the left one is not smaller. -/
def pickChild (heap : List Entry) (childpos : Nat) : Nat :=
  if childpos + 1 < heap.length then
    if ¬ entLt (hget heap childpos) (hget heap (childpos + 1)) then childpos + 1
    else childpos
  else childpos

/-- heapq._siftdown: bubble newitem up from pos toward startpos. -/
def siftdownAux (heap : List Entry) (startpos pos : Nat) (newitem : Entry) :
    List Entry :=
  if h : startpos < pos then
    let parentpos := (pos - 1) / 2
    let parent := hget heap parentpos
    if entLt newitem parent then
      siftdownAux (heap.set pos parent) startpos parentpos newitem
    else heap.set pos newitem
  else heap.set pos newitem
termination_by pos
decreasing_by omega

/-- heapq._siftup main loop: move the hole at pos down along the smaller-child
    path to a leaf, then place newitem and restore with _siftdown. -/
def siftupAux (heap : List Entry) (startpos pos : Nat) (newitem : Entry) :
    List Entry :=
  if h : 2 * pos + 1 < heap.length then
    let childpos := pickChild heap (2 * pos + 1)
    siftupAux (heap.set pos (hget heap childpos)) startpos childpos newitem
  else siftdownAux (heap.set pos newitem) startpos pos newitem
termination_by heap.length - pos
decreasing_by
  simp only [List.length_set]
  simp only [pickChild]
  split
  · split
    · omega
    · omega
  · omega

/-- heapq._siftup(heap, pos): newitem is read at pos on entry. -/
def siftup (heap : List Entry) (pos : Nat) : List Entry :=
  siftupAux heap pos pos (hget heap pos)

/-- The loop of heapq.heapify: _siftup at indices n/2 - 1 down to 0. -/
def heapifyLoop : Nat → List Entry → List Entry
  | 0, x => x
  | i + 1, x => heapifyLoop i (siftup x i)

/-- heapq.heapify. -/
def heapify (x : List Entry) : List Entry := heapifyLoop (x.length / 2) x

/-- heapq.heappop: remove and return the smallest entry; none on the empty
    heap (Python raises IndexError there). -/
def heappop (heap : List Entry) : Option (Entry × List Entry) :=
  match heap with
  | [] => none
  | x :: xs =>
    let lastelt := (x :: xs).getLast (by simp)
    let rest := (x :: xs).dropLast
    if rest.isEmpty then some (lastelt, rest)
    else some (hget rest 0, siftup (rest.set 0 lastelt) 0)

/-- Repeated heappop with explicit fuel. -/
def popAllFuel : Nat → List Entry → List Entry
  | 0, _ => []
  | fuel + 1, heap =>
    match heappop heap with
    | none => []
    | some (e, rest) => e :: popAllFuel fuel rest

/-- Pop every entry of a heap, in pop order. -/
def popAll (heap : List Entry) : List Entry := popAllFuel heap.length heap

/-- j is a child index of i in the implicit binary tree. -/
def childEdge (i j : Nat) : Prop := j = 2 * i + 1 ∨ j = 2 * i + 2

/-- The standard binary min-heap invariant under the tuple order. -/
def IsHeap (l : List Entry) : Prop :=
  ∀ i j, childEdge i j → j < l.length → entLe (hget l i) (hget l j)

/-- k lies in the subtree rooted at i of the implicit binary tree. -/
inductive Descendant : Nat → Nat → Prop where
  | refl (i : Nat) : Descendant i i
  | left (i : Nat) {k : Nat} : Descendant (2 * i + 1) k → Descendant i k
  | right (i : Nat) {k : Nat} : Descendant (2 * i + 2) k → Descendant i k

/-!
Embedding of risk_scorer.py.  DecimalField amounts and float scores are
rationals.  The Debtor record carries the fields that risk_scorer.py and
bulk_processor.py read.  (models.py itself declares no payment_status column,
but bulk_processor.py line 262 reads debtor.payment_status, so the record
seen by the processor is embedded with that attribute.)  stored_score models
debtor.risk_score.total_score (none = RiskScore.DoesNotExist), and
upsert_error models a failure of the RiskScore.objects.update_or_create
persistence call inside calculate_risk_score (none = upsert succeeds).
-/

structure DebtorRec where
  id : ℤ
  name : String
  total_debt_amount : ℚ
  monthly_income : ℚ
  late_payments_count : ℕ
  employment_status : String
  contract_type : String
  industry_sector : String
  family_situation : String
  payment_status : String
  stored_score : Option ℚ
  upsert_error : Option String
deriving DecidableEq, Repr

/-- Modelled from the spec: the module scoring_constants.py
    (EMPLOYMENT_RISK_SCORES) is not under src/.  Spec section 4.1: an O(1)
    table lookup by category; unrecognized values default to 5 at the lookup
    site.  Concrete values are unspecified there and chosen consistent with
    the section 8 examples (GOVERNMENT low, UNEMPLOYED near-maximum). -/
def EMPLOYMENT_RISK_SCORES : List (String × ℕ) :=
  [("GOVERNMENT", 1), ("EMPLOYED", 3), ("SELF_EMPLOYED", 6), ("UNEMPLOYED", 10)]

/-- Modelled from the spec: the module scoring_constants.py
    (CONTRACT_RISK_SCORES) is not under src/; values chosen consistent with
    the section 8 examples (PERMANENT low, FREELANCE near-maximum). -/
def CONTRACT_RISK_SCORES : List (String × ℕ) :=
  [("PERMANENT", 1), ("FIXED_TERM", 4), ("TEMPORARY", 7), ("FREELANCE", 9)]

/-- Modelled from the spec: the module scoring_constants.py
    (INDUSTRY_RISK_SCORES) is not under src/; values chosen consistent with
    the section 8 examples (HEALTHCARE low, HOSPITALITY near-maximum). -/
def INDUSTRY_RISK_SCORES : List (String × ℕ) :=
  [("HEALTHCARE", 1), ("TECHNOLOGY", 3), ("RETAIL", 6), ("HOSPITALITY", 9)]

/-- Modelled from the spec: the module scoring_constants.py
    (FAMILY_RISK_SCORES) is not under src/; values chosen consistent with the
    section 8 examples (MARRIED_DUAL_INCOME low, SINGLE_WITH_DEPENDENTS
    near-maximum). -/
def FAMILY_RISK_SCORES : List (String × ℕ) :=
  [("MARRIED_DUAL_INCOME", 1), ("MARRIED_SINGLE_INCOME", 4), ("SINGLE", 6),
   ("SINGLE_WITH_DEPENDENTS", 9)]

/-- RiskScorer.FACTOR_WEIGHTS. -/
def FACTOR_WEIGHTS : List (String × ℕ) :=
  [("debt_ratio", 9), ("payment_history", 9), ("employment_status", 8),
   ("contract_type", 7), ("industry_sector", 6), ("family_situation", 6)]

/-- RiskScorer.normalize_debt_ratio. -/
def normalize_debt_ratio (debtor : DebtorRec) : ℕ :=
  if debtor.monthly_income ≤ 0 then 10
  else
    let ratio := debtor.total_debt_amount / debtor.monthly_income
    if ratio ≤ 1 then 2
    else if ratio ≤ 3 then 5
    else if ratio ≤ 6 then 7
    else 10

/-- RiskScorer.normalize_payment_history. -/
def normalize_payment_history (debtor : DebtorRec) : ℕ :=
  let late_count := debtor.late_payments_count
  if late_count = 0 then 1
  else if late_count ≤ 2 then 4
  else if late_count ≤ 5 then 7
  else 10

/-- RiskScorer.get_employment_risk: dict .get with default 5. -/
def get_employment_risk (debtor : DebtorRec) : ℕ :=
  (EMPLOYMENT_RISK_SCORES.lookup debtor.employment_status).getD 5

/-- RiskScorer.get_contract_risk. -/
def get_contract_risk (debtor : DebtorRec) : ℕ :=
  (CONTRACT_RISK_SCORES.lookup debtor.contract_type).getD 5

/-- RiskScorer.get_industry_risk. -/
def get_industry_risk (debtor : DebtorRec) : ℕ :=
  (INDUSTRY_RISK_SCORES.lookup debtor.industry_sector).getD 5

/-- RiskScorer.get_family_risk. -/
def get_family_risk (debtor : DebtorRec) : ℕ :=
  (FAMILY_RISK_SCORES.lookup debtor.family_situation).getD 5

/-- RiskScorer.get_risk_level: bucket by percentage of the theoretical
    maximum, which is the sum of 10 * weight over FACTOR_WEIGHTS. -/
def get_risk_level (weighted_score : ℚ) : String :=
  let max_possible_score : ℚ := ((FACTOR_WEIGHTS.map (fun fw => 10 * fw.2)).sum : ℕ)
  let risk_percentage := weighted_score / max_possible_score * 100
  if risk_percentage ≤ 30 then "LOW"
  else if risk_percentage ≤ 60 then "MEDIUM"
  else if risk_percentage ≤ 80 then "HIGH"
  else "CRITICAL"

/-- The normalized_scores dict built by RiskScorer.calculate_risk_score. -/
structure NormalizedScores where
  debt_ratio : ℕ
  payment_history : ℕ
  employment_status : ℕ
  contract_type : ℕ
  industry_sector : ℕ
  family_situation : ℕ
deriving DecidableEq, Repr

/-- The normalized factor scores of a debtor. -/
def normalized_scores_of (debtor : DebtorRec) : NormalizedScores :=
  { debt_ratio := normalize_debt_ratio debtor
    payment_history := normalize_payment_history debtor
    employment_status := get_employment_risk debtor
    contract_type := get_contract_risk debtor
    industry_sector := get_industry_risk debtor
    family_situation := get_family_risk debtor }

/-- The weighted sum of calculate_risk_score: each normalized score times its
    FACTOR_WEIGHTS entry (9, 9, 8, 7, 6, 6). -/
def weighted_total (ns : NormalizedScores) : ℕ :=
  ns.debt_ratio * 9 + ns.payment_history * 9 + ns.employment_status * 8 +
    ns.contract_type * 7 + ns.industry_sector * 6 + ns.family_situation * 6

/-- The dict returned by RiskScorer.calculate_risk_score (the calculated_at
    timestamp is abstracted away). -/
structure ScoreResult where
  total_score : ℚ
  normalized_scores : NormalizedScores
  risk_level : String
  created : Bool
deriving DecidableEq, Repr

/-- RiskScorer.calculate_risk_score: normalize, weight, bucket, then upsert;
    a persistence failure (debtor.upsert_error) propagates as an exception,
    otherwise the result dict is returned.  created mirrors update_or_create:
    true when no RiskScore row existed. -/
def calculate_risk_score (debtor : DebtorRec) : Except String ScoreResult :=
  let ns := normalized_scores_of debtor
  let weighted_score : ℚ := (weighted_total ns : ℕ)
  let risk_level := get_risk_level weighted_score
  match debtor.upsert_error with
  | some msg => .error msg
  | none =>
      .ok { total_score := weighted_score, normalized_scores := ns,
            risk_level := risk_level, created := debtor.stored_score.isNone }

/-!
Embedding of bulk_processor.py.  self.stats is threaded explicitly; the
database is an id-indexed partial map (none = Debtor.DoesNotExist on fetch);
timezone.now() is an opaque string parameter.
-/

/-- One record of stats["errors"]. -/
structure ErrorRecord where
  debtor_id : ℤ
  error_message : String
  stage : String
deriving DecidableEq, Repr

/-- The scalar counters of self.stats.  messages_sent and
    total_messaged_debtors are initialized lazily in Python; starting them at
    0 yields identical values. -/
structure Stats where
  total_processed : ℕ
  high_priority_count : ℕ
  errors : List ErrorRecord
  messages_sent : ℕ
  total_messaged_debtors : ℕ
deriving DecidableEq, Repr

/-- The configuration kept by BulkProcessor.__init__ (the messenger
    collaborator is represented by its presence). -/
structure BPConfig where
  batch_size : ℤ
  high_priority_threshold : ℚ
  has_messenger : Bool
deriving DecidableEq, Repr

/-- BulkProcessor.__init__: store configuration as given and zeroed stats. -/
def bulk_processor_init (batch_size : ℤ) (high_priority_threshold : ℚ)
    (has_messenger : Bool) : BPConfig × Stats :=
  ({ batch_size := batch_size, high_priority_threshold := high_priority_threshold,
     has_messenger := has_messenger },
   { total_processed := 0, high_priority_count := 0, errors := [],
     messages_sent := 0, total_messaged_debtors := 0 })

/-- BulkProcessor._record_error. -/
def record_error (st : Stats) (debtor_id : ℤ) (error_message stage : String) :
    Stats :=
  { st with errors := st.errors ++
      [{ debtor_id := debtor_id, error_message := error_message, stage := stage }] }

/-- BulkProcessor._update_processing_stats. -/
def update_processing_stats (threshold : ℚ) (st : Stats) (priority : ℚ) : Stats :=
  let st1 := { st with total_processed := st.total_processed + 1 }
  if priority > threshold then
    { st1 with high_priority_count := st1.high_priority_count + 1 }
  else st1

/-- BulkProcessor.calculate_priority: prefer the stored total_score (the
    DoesNotExist branch scores on demand); multiply by the debt amount. -/
def calculate_priority (debtor : DebtorRec) : Except String ℚ :=
  match debtor.stored_score with
  | some risk_score => .ok (risk_score * debtor.total_debt_amount)
  | none =>
      match calculate_risk_score debtor with
      | .ok score_result => .ok (score_result.total_score * debtor.total_debt_amount)
      | .error e => .error e

/-- BulkProcessor._build_priority_tuples: per-debtor failures are recorded
    under stage priority_calculation and skipped. -/
def build_priority_tuples (st : Stats) (debtors : List DebtorRec) :
    List Entry × Stats :=
  debtors.foldl
    (fun acc debtor =>
      match calculate_priority debtor with
      | .ok priority => (acc.1 ++ [(-priority, debtor.id)], acc.2)
      | .error e => (acc.1, record_error acc.2 debtor.id e "priority_calculation"))
    ([], st)

/-- BulkProcessor.build_priority_queue: build tuples, then heapify. -/
def build_priority_queue (st : Stats) (debtors : List DebtorRec) :
    List Entry × Stats :=
  let pt := build_priority_tuples st debtors
  (heapify pt.1, pt.2)

/-- A per-debtor result dict; every key is optional, mirroring dict.get. -/
structure PResult where
  debtor_id : Option ℤ
  debtor_name : Option String
  priority_score : Option ℚ
  risk_score : Option ℚ
  risk_level : Option String
  debt_amount : Option ℚ
  payment_status : Option String
  processed_at : Option String
  status : Option String
  error_message : Option String
deriving DecidableEq, Repr

/-- BulkProcessor._process_single_debtor: rescore fresh, update counters,
    build the success dict. -/
def process_single_debtor (threshold : ℚ) (st : Stats) (debtor : DebtorRec)
    (now : String) : Except String (PResult × Stats) :=
  match calculate_risk_score debtor with
  | .error e => .error e
  | .ok score_result =>
      let fresh_priority := score_result.total_score * debtor.total_debt_amount
      let st1 := update_processing_stats threshold st fresh_priority
      .ok
        ({ debtor_id := some debtor.id
           debtor_name := some debtor.name
           priority_score := some fresh_priority
           risk_score := some score_result.total_score
           risk_level := some score_result.risk_level
           debt_amount := some debtor.total_debt_amount
           payment_status := some debtor.payment_status
           processed_at := some now
           status := some "success"
           error_message := none }, st1)

/-- BulkProcessor._create_error_result. -/
def create_error_result (debtor_id : ℤ) (priority : ℚ)
    (error_message now : String) : PResult :=
  { debtor_id := some debtor_id
    debtor_name := none
    priority_score := some priority
    risk_score := none
    risk_level := none
    debt_amount := none
    payment_status := none
    processed_at := some now
    status := some "error"
    error_message := some error_message }

/-- The str() of the Django DoesNotExist exception raised by a failed fetch. -/
def doesNotExistMsg : String := "Debtor matching query does not exist."

/-- The body of the per-entry iteration of BulkProcessor.process_batch:
    fetch the debtor, delegate to _process_single_debtor, and on any failure
    build an error result using the best-available priority (stored score if
    the fetched debtor has one, else the heap snapshot). -/
def process_entry (threshold : ℚ) (db : ℤ → Option DebtorRec) (now : String)
    (st : Stats) (ent : Entry) : PResult × Stats :=
  let heap_priority_snapshot := -ent.1
  let debtor_id := ent.2
  match db debtor_id with
  | none =>
      (create_error_result debtor_id heap_priority_snapshot doesNotExistMsg now,
       record_error st debtor_id doesNotExistMsg "debtor_processing")
  | some debtor =>
      match process_single_debtor threshold st debtor now with
      | .ok (result, st1) => (result, st1)
      | .error e =>
          let best_priority :=
            match debtor.stored_score with
            | some stored_score => stored_score * debtor.total_debt_amount
            | none => heap_priority_snapshot
          (create_error_result debtor_id best_priority e now,
           record_error st debtor_id e "debtor_processing")

/-- The for loop of process_batch: iteration count fixed up front, one
    heappop and one appended result per iteration. -/
def process_batch_loop (threshold : ℚ) (db : ℤ → Option DebtorRec)
    (now : String) :
    ℕ → List Entry → Stats → List PResult → List Entry × Stats × List PResult
  | 0, heap, st, acc => (heap, st, acc)
  | n + 1, heap, st, acc =>
    match heappop heap with
    | none => (heap, st, acc)
    | some (ent, heap1) =>
        let (result, st1) := process_entry threshold db now st ent
        process_batch_loop threshold db now n heap1 st1 (acc ++ [result])

/-- The filtering for loop of _notify_high_priority_debtors: keep results
    whose status is "success" and whose priority_score (default 0) is
    strictly above threshold. -/
def collect_high_priority (threshold : ℚ) : List PResult → List PResult
  | [] => []
  | result :: rest =>
    if result.status ≠ some "success" then collect_high_priority threshold rest
    else if result.priority_score.getD 0 > threshold then
      result :: collect_high_priority threshold rest
    else collect_high_priority threshold rest

/-!
Embedding of sqs_messenger.py.  The second component of the send result is
the transmitted payload: none means no payload was built or sent.
-/

/-- One normalized payload item of SQSMessenger.create_payload. -/
structure PayloadItem where
  debtor_id : ℤ
  internal_balance : Option ℚ
  internal_status : Option String
  processed_at : String
deriving DecidableEq, Repr

/-- SQSMessenger.create_payload: results missing debtor_id are skipped. -/
def create_payload (results : List PResult) (sent_at : String) :
    List PayloadItem :=
  results.filterMap fun result =>
    match result.debtor_id with
    | none => none
    | some debtor_id =>
        some { debtor_id := debtor_id, internal_balance := result.debt_amount,
               internal_status := result.payment_status, processed_at := sent_at }

/-- SQSMessenger.send_high_priority_batch: returns the count summary and, when
    a transmission happened, the payload that was sent. -/
def send_high_priority_batch (high_priority_results : List PResult)
    (sent_at : String) : ℕ × Option (List PayloadItem) :=
  let count := high_priority_results.length
  if count = 0 then (0, none)
  else
    let payload := create_payload high_priority_results sent_at
    (count, some payload)

/-- BulkProcessor._notify_high_priority_debtors: when a messenger is
    configured and the filtered list is nonempty, send it and update the
    notifier counters.  The second component is the list handed to the
    messenger (none = the messenger was not invoked). -/
def notify_high_priority_debtors (cfg : BPConfig) (now : String) (st : Stats)
    (batch_results : List PResult) : Stats × Option (List PResult) :=
  if cfg.has_messenger then
    let high_priority_results := collect_high_priority cfg.high_priority_threshold batch_results
    if high_priority_results.isEmpty then (st, none)
    else
      let message_result := send_high_priority_batch high_priority_results now
      ({ st with messages_sent := st.messages_sent + 1,
                 total_messaged_debtors := st.total_messaged_debtors + message_result.1 },
       some high_priority_results)
  else (st, none)

/-- The value returned by one process_batch call, together with the mutated
    heap, the stats and what was forwarded to the messenger. -/
structure BatchOutcome where
  heap : List Entry
  stats : Stats
  results : List PResult
  notified : Option (List PResult)
deriving Repr

/-- BulkProcessor.process_batch: pop min(batch_size, len(heap)) entries
    (Python range over a possibly negative int is empty), process each, then
    delegate notification. -/
def process_batch (cfg : BPConfig) (db : ℤ → Option DebtorRec) (now : String)
    (priority_queue : List Entry) (st : Stats) (batch_size : Option ℤ) :
    BatchOutcome :=
  let bs := batch_size.getD cfg.batch_size
  let iters := (min bs (priority_queue.length : ℤ)).toNat
  let out :=
    process_batch_loop cfg.high_priority_threshold db now iters priority_queue st []
  let notif := notify_high_priority_debtors cfg now out.2.1 out.2.2
  { heap := out.1, stats := notif.1, results := out.2.2, notified := notif.2 }

/-- The while loop of process_all_debtors, with explicit fuel.  The final
    boolean records whether the loop condition (empty heap) was reached, i.e.
    whether the Python loop would have terminated within that many
    iterations. -/
def process_all_loop (cfg : BPConfig) (db : ℤ → Option DebtorRec)
    (now : String) :
    ℕ → List Entry → Stats → List PResult → ℕ →
      List Entry × Stats × List PResult × ℕ × Bool
  | 0, heap, st, acc, bn => (heap, st, acc, bn, heap.isEmpty)
  | fuel + 1, heap, st, acc, bn =>
    if heap.isEmpty then (heap, st, acc, bn, true)
    else
      let out := process_batch cfg db now heap st none
      process_all_loop cfg db now fuel out.heap out.stats (acc ++ out.results) (bn + 1)

/-- BulkProcessor.process_all_debtors: build the queue once, then drain it
    batch by batch.  An initial heap of n entries needs at most n iterations
    when batch_size is at least 1, so the loop is run with that much fuel. -/
def process_all_debtors (cfg : BPConfig) (db : ℤ → Option DebtorRec)
    (now : String) (st : Stats) (debtors : List DebtorRec) :
    List Entry × Stats × List PResult × ℕ × Bool :=
  let pq := build_priority_queue st debtors
  process_all_loop cfg db now pq.1.length pq.1 pq.2 [] 1

/-! Concrete records used to instantiate theorems with hypotheses. -/

/-- A low-risk debtor whose score computes and persists successfully. -/
def wd1 : DebtorRec :=
  { id := 1, name := "a", total_debt_amount := 2000, monthly_income := 8000,
    late_payments_count := 0, employment_status := "GOVERNMENT",
    contract_type := "PERMANENT", industry_sector := "HEALTHCARE",
    family_situation := "MARRIED_DUAL_INCOME", payment_status := "CURRENT",
    stored_score := none, upsert_error := none }

/-- Same scoring attributes as wd1, different identity fields. -/
def wd2 : DebtorRec := { wd1 with id := 2, name := "b", payment_status := "LATE" }

/-- A debtor with a stored risk score, so queue build uses the cached value. -/
def wd3 : DebtorRec := { wd1 with id := 3, stored_score := some 100 }

/-- A debtor whose on-demand scoring fails at the persistence upsert. -/
def wd4 : DebtorRec := { wd1 with id := 4, upsert_error := some "boom" }

/-- The empty initial statistics record. -/
def stats0 : Stats := (bulk_processor_init 100 500000 false).2

/-- A one-debtor database containing wd1 under id 1. -/
def wdb : ℤ → Option DebtorRec := fun i => if i = 1 then some wd1 else none

/-- A success result that lacks a debtor_id, as tolerated by create_payload. -/
def orphanResult : PResult :=
  { debtor_id := none, debtor_name := none, priority_score := some 600000,
    risk_score := none, risk_level := none, debt_amount := some 100,
    payment_status := some "CURRENT", processed_at := none,
    status := some "success", error_message := none }

/-- A configuration with batch size 1 and no messenger. -/
def wcfg1 : BPConfig :=
  { batch_size := 1, high_priority_threshold := 1000, has_messenger := false }

/-- A configuration with a non-positive batch size. -/
def wcfg0 : BPConfig :=
  { batch_size := -1, high_priority_threshold := 1000, has_messenger := false }

/-- A configuration with a messenger attached. -/
def wcfgM : BPConfig :=
  { batch_size := 100, high_priority_threshold := 1000, has_messenger := true }

/-- A three-entry heap of distinct priorities. -/
def wheap3 : List Entry := [(-1, 1), (-2, 2), (-3, 3)]

/-- The score result computed for wd1 (and for wd2). -/
def wScore1 : ScoreResult :=
  { total_score := 54,
    normalized_scores :=
      { debt_ratio := 2, payment_history := 1, employment_status := 1,
        contract_type := 1, industry_sector := 1, family_situation := 1 },
    risk_level := "LOW", created := true }

/-- A fully populated success result. -/
def wResult : PResult :=
  { debtor_id := some 1, debtor_name := some "a", priority_score := some 600000,
    risk_score := some 54, risk_level := some "LOW", debt_amount := some 2000,
    payment_status := some "CURRENT", processed_at := some "t",
    status := some "success", error_message := none }

/-!
Order lemmas for the Python tuple comparison.
-/

theorem entLt_irrefl (a : Entry) : ¬ entLt a a := by
  rintro (h | ⟨-, h⟩) <;> exact lt_irrefl _ h

theorem entLe_refl (a : Entry) : entLe a a := entLt_irrefl a

theorem entLe_iff (a b : Entry) :
    entLe a b ↔ a.1 < b.1 ∨ (a.1 = b.1 ∧ a.2 ≤ b.2) := by
  unfold entLe entLt
  constructor
  · intro h
    push_neg at h
    rcases lt_or_eq_of_le h.1 with h1 | h1
    · exact Or.inl h1
    · exact Or.inr ⟨h1, h.2 h1.symm⟩
  · rintro (h | ⟨h1, h2⟩) <;> push_neg
    · exact ⟨le_of_lt h, fun he => absurd (he ▸ h) (lt_irrefl _)⟩
    · exact ⟨le_of_eq h1, fun _ => h2⟩

theorem entLe_of_entLt {a b : Entry} (h : entLt a b) : entLe a b := by
  rw [entLe_iff]
  rcases h with h | ⟨h1, h2⟩
  · exact Or.inl h
  · exact Or.inr ⟨h1, le_of_lt h2⟩

theorem entLe_trans {a b c : Entry} (hab : entLe a b) (hbc : entLe b c) :
    entLe a c := by
  rw [entLe_iff] at hab hbc ⊢
  rcases hab with h | ⟨h1, h2⟩ <;> rcases hbc with g | ⟨g1, g2⟩
  · exact Or.inl (lt_trans h g)
  · exact Or.inl (g1 ▸ h)
  · exact Or.inl (h1 ▸ g)
  · exact Or.inr ⟨h1.trans g1, le_trans h2 g2⟩

theorem entLe_fst {a b : Entry} (h : entLe a b) : a.1 ≤ b.1 := by
  rw [entLe_iff] at h
  rcases h with h | ⟨h1, -⟩
  · exact le_of_lt h
  · exact le_of_eq h1

theorem entLe_of_not_entLt {a b : Entry} (h : ¬ entLt a b) : entLe b a := h

/-!
Index and permutation lemmas for the heap embedding.
-/

theorem hget_set_self (l : List Entry) (i : Nat) (v : Entry)
    (h : i < l.length) : hget (l.set i v) i = v := by
  unfold hget
  rw [List.getD_eq_getElem _ _ (by simpa using h)]
  simp

theorem hget_set_ne (l : List Entry) (i j : Nat) (v : Entry) (h : i ≠ j) :
    hget (l.set i v) j = hget l j := by
  unfold hget
  simp [List.getD_eq_getD_get?, List.get?_eq_getElem?, List.getElem?_set_ne h]

theorem hget_dropLast (l : List Entry) (i : Nat) (h : i < l.length - 1) :
    hget l.dropLast i = hget l i := by
  unfold hget
  rw [List.dropLast_eq_take]
  simp [List.getD_eq_getD_get?, List.get?_eq_getElem?, List.getElem?_take_of_lt h]

theorem set_hget_self (l : List Entry) (i : Nat) (h : i < l.length) :
    l.set i (hget l i) = l := by
  apply List.ext_getElem?
  intro n
  by_cases hn : n = i
  · subst hn
    rw [hget, List.getD_eq_getElem _ _ h, List.getElem?_set_self (by simpa using h)]
    simp [List.getElem?_eq_getElem h]
  · rw [List.getElem?_set_ne fun he => hn he.symm]

theorem cons_set_comm_perm (t : List Entry) :
    ∀ n (b v : Entry), n < t.length →
      List.Perm (v :: t.set n b) (b :: t.set n v) := by
  induction t with
  | nil => intro n b v h; simp at h
  | cons c s ih =>
    intro n b v h
    cases n with
    | zero =>
      simp only [List.set_cons_zero]
      exact List.Perm.swap b v s
    | succ m =>
      have hm : m < s.length := by simpa using h
      simp only [List.set_cons_succ]
      have h1 : List.Perm (v :: c :: s.set m b) (c :: v :: s.set m b) :=
        List.Perm.swap c v _
      have h2 : List.Perm (c :: v :: s.set m b) (c :: b :: s.set m v) :=
        List.Perm.cons c (ih m b v hm)
      have h3 : List.Perm (c :: b :: s.set m v) (b :: c :: s.set m v) :=
        List.Perm.swap b c _
      exact (h1.trans h2).trans h3

theorem hget_cons_set_perm (l : List Entry) :
    ∀ j (a : Entry), j < l.length →
      List.Perm (hget l j :: l.set j a) (a :: l) := by
  induction l with
  | nil => intro j a h; simp at h
  | cons b t ih =>
    intro j a h
    cases j with
    | zero =>
      simp only [hget, List.getD_cons_zero, List.set_cons_zero]
      exact List.Perm.swap a b t
    | succ m =>
      have hm : m < t.length := by simpa using h
      simp only [hget, List.getD_cons_succ, List.set_cons_succ]
      have h1 : List.Perm (t.getD m (0, 0) :: b :: t.set m a)
          (b :: t.getD m (0, 0) :: t.set m a) := List.Perm.swap b _ _
      have h2 : List.Perm (b :: t.getD m (0, 0) :: t.set m a) (b :: a :: t) :=
        List.Perm.cons b (ih m a hm)
      have h3 : List.Perm (b :: a :: t) (a :: b :: t) := List.Perm.swap a b t
      exact (h1.trans h2).trans h3

theorem set_set_perm (l : List Entry) :
    ∀ i j (v : Entry), i < l.length → j < l.length → i ≠ j →
      List.Perm ((l.set i (hget l j)).set j v) (l.set i v) := by
  induction l with
  | nil => intro i j v hi _ _; simp at hi
  | cons b t ih =>
    intro i j v hi hj hne
    cases i with
    | zero =>
      cases j with
      | zero => exact absurd rfl hne
      | succ m =>
        have hm : m < t.length := by simpa using hj
        simp only [hget, List.getD_cons_succ, List.set_cons_zero,
          List.set_cons_succ]
        exact hget_cons_set_perm t m v hm
    | succ n =>
      cases j with
      | zero =>
        have hn : n < t.length := by simpa using hi
        simp only [hget, List.getD_cons_zero, List.set_cons_succ,
          List.set_cons_zero]
        exact cons_set_comm_perm t n b v hn
      | succ m =>
        have hn : n < t.length := by simpa using hi
        have hm : m < t.length := by simpa using hj
        simp only [hget, List.getD_cons_succ, List.set_cons_succ]
        exact List.Perm.cons b (ih n m v hn hm (by omega))

theorem pickChild_cases (l : List Entry) (c : Nat) :
    pickChild l c = c ∨ pickChild l c = c + 1 := by
  unfold pickChild
  split
  · split
    · exact Or.inr rfl
    · exact Or.inl rfl
  · exact Or.inl rfl

theorem pickChild_lt (l : List Entry) (c : Nat) (h : c < l.length) :
    pickChild l c < l.length := by
  unfold pickChild
  split
  · split
    · next h1 _ => exact h1
    · exact h
  · exact h

/-- The selected child holds the smaller of the two child values. -/
theorem pickChild_min (l : List Entry) (c j : Nat) (hc : c < l.length)
    (hj : j = c ∨ j = c + 1) (hjl : j < l.length) :
    entLe (hget l (pickChild l c)) (hget l j) := by
  unfold pickChild
  split
  · next h1 =>
    split
    · next h2 =>
      rcases hj with rfl | rfl
      · exact entLe_of_not_entLt h2
      · exact entLe_refl _
    · next h2 =>
      rcases hj with rfl | rfl
      · exact entLe_refl _
      · exact entLe_of_entLt (not_not.mp h2)
  · next h1 =>
    rcases hj with rfl | rfl
    · exact entLe_refl _
    · exact absurd hjl h1

theorem siftdownAux_perm (startpos : Nat) (ni : Entry) :
    ∀ pos (l : List Entry), pos < l.length →
      List.Perm (siftdownAux l startpos pos ni) (l.set pos ni) := by
  intro pos
  induction pos using Nat.strong_induction_on with
  | _ pos IH =>
    intro l hpos
    rw [siftdownAux]
    split
    · next hlt =>
      dsimp only
      split
      · next hcmp =>
        have hp2 : (pos - 1) / 2 < pos := by omega
        have hrec := IH ((pos - 1) / 2) hp2 (l.set pos (hget l ((pos - 1) / 2)))
          (by simp only [List.length_set]; omega)
        exact hrec.trans
          (set_set_perm l pos ((pos - 1) / 2) ni hpos (by omega) (by omega))
      · exact List.Perm.refl _
    · exact List.Perm.refl _

theorem siftupAux_perm (s : Nat) (ni : Entry) :
    ∀ n pos (l : List Entry), l.length - pos ≤ n → pos < l.length →
      List.Perm (siftupAux l s pos ni) (l.set pos ni) := by
  intro n
  induction n with
  | zero => intro pos l hn hpos; omega
  | succ n IH =>
    intro pos l hn hpos
    rw [siftupAux]
    split
    · next hchild =>
      dsimp only
      have hcc := pickChild_cases l (2 * pos + 1)
      have hcl : pickChild l (2 * pos + 1) < l.length :=
        pickChild_lt l (2 * pos + 1) hchild
      have hcgt : pos < pickChild l (2 * pos + 1) := by
        rcases hcc with hc | hc <;> omega
      have hrec := IH (pickChild l (2 * pos + 1))
        (l.set pos (hget l (pickChild l (2 * pos + 1))))
        (by simp only [List.length_set]; omega)
        (by simp only [List.length_set]; omega)
      exact hrec.trans
        (set_set_perm l pos (pickChild l (2 * pos + 1)) ni hpos hcl (by omega))
    · next hleaf =>
      have hrec := siftdownAux_perm s ni pos (l.set pos ni)
        (by simp only [List.length_set]; omega)
      rw [List.set_set] at hrec
      exact hrec

theorem siftup_perm (l : List Entry) (pos : Nat) (h : pos < l.length) :
    List.Perm (siftup l pos) l := by
  unfold siftup
  have hp := siftupAux_perm pos (hget l pos) (l.length - pos) pos l le_rfl h
  rw [set_hget_self l pos h] at hp
  exact hp

theorem heapifyLoop_perm :
    ∀ k (x : List Entry), k ≤ x.length → List.Perm (heapifyLoop k x) x := by
  intro k
  induction k with
  | zero => intro x _; exact List.Perm.refl x
  | succ k IH =>
    intro x h
    have hs : List.Perm (siftup x k) x := siftup_perm x k (by omega)
    have hlen : (siftup x k).length = x.length := hs.length_eq
    exact (IH (siftup x k) (by omega)).trans hs

/-- heapify permutes its input: no entry is created or lost. -/
theorem heapify_perm (x : List Entry) : List.Perm (heapify x) x :=
  heapifyLoop_perm (x.length / 2) x (by omega)

theorem heappop_none_iff (heap : List Entry) :
    heappop heap = none ↔ heap = [] := by
  cases heap with
  | nil => simp [heappop]
  | cons x xs =>
    simp only [heappop]
    split <;> simp

theorem dropLast_isEmpty_cases (x : Entry) (xs : List Entry) :
    ((x :: xs).dropLast.isEmpty = true → xs = []) ∧
      ((x :: xs).dropLast.isEmpty = false → 0 < (x :: xs).dropLast.length) := by
  cases xs with
  | nil => simp
  | cons y ys => simp [List.dropLast]

theorem heappop_perm (heap : List Entry) (e : Entry) (rest : List Entry)
    (h : heappop heap = some (e, rest)) : List.Perm (e :: rest) heap := by
  cases heap with
  | nil => simp [heappop] at h
  | cons x xs =>
    simp only [heappop] at h
    split at h
    · next hemp =>
      have hxs : xs = [] := (dropLast_isEmpty_cases x xs).1 hemp
      subst hxs
      simp only [Option.some.injEq, Prod.mk.injEq] at h
      rw [← h.1, ← h.2]
      exact List.Perm.refl _
    · next hemp =>
      have h0 : 0 < (x :: xs).dropLast.length :=
        (dropLast_isEmpty_cases x xs).2 (by simpa using hemp)
      simp only [Option.some.injEq, Prod.mk.injEq] at h
      have hsp : List.Perm
          (siftup ((x :: xs).dropLast.set 0 ((x :: xs).getLast (by simp))) 0)
          ((x :: xs).dropLast.set 0 ((x :: xs).getLast (by simp))) :=
        siftup_perm _ 0 (by simpa using h0)
      have h1 : List.Perm (e :: rest)
          (hget ((x :: xs).dropLast) 0 ::
            (x :: xs).dropLast.set 0 ((x :: xs).getLast (by simp))) := by
        rw [← h.1, ← h.2]
        exact List.Perm.cons _ hsp
      have h2 : List.Perm
          (hget ((x :: xs).dropLast) 0 ::
            (x :: xs).dropLast.set 0 ((x :: xs).getLast (by simp)))
          ((x :: xs).getLast (by simp) :: (x :: xs).dropLast) :=
        hget_cons_set_perm _ 0 _ h0
      have h3 : List.Perm ((x :: xs).getLast (by simp) :: (x :: xs).dropLast)
          ((x :: xs).dropLast ++ [(x :: xs).getLast (by simp)]) :=
        (List.perm_append_singleton _ _).symm
      have h4 : (x :: xs).dropLast ++ [(x :: xs).getLast (by simp)] = x :: xs :=
        List.dropLast_append_getLast (by simp)
      exact ((h1.trans h2).trans h3).trans (by rw [h4])

theorem heappop_length (heap : List Entry) (e : Entry) (rest : List Entry)
    (h : heappop heap = some (e, rest)) : rest.length + 1 = heap.length := by
  have := (heappop_perm heap e rest h).length_eq
  simpa using this

theorem popAllFuel_perm :
    ∀ fuel (heap : List Entry), heap.length ≤ fuel →
      List.Perm (popAllFuel fuel heap) heap := by
  intro fuel
  induction fuel with
  | zero =>
    intro heap h
    have hnil : heap = [] := List.length_eq_zero.mp (by omega)
    subst hnil
    exact List.Perm.refl _
  | succ fuel IH =>
    intro heap h
    cases hp : heappop heap with
    | none =>
      rw [(heappop_none_iff heap).mp hp]
      exact List.Perm.refl _
    | some pr =>
      obtain ⟨e, rest⟩ := pr
      simp only [popAllFuel, hp]
      have hlen := heappop_length heap e rest hp
      exact (List.Perm.cons e (IH rest (by omega))).trans
        (heappop_perm heap e rest hp)

/-- Every entry of the heap is popped exactly once. -/
theorem popAll_perm (heap : List Entry) : List.Perm (popAll heap) heap :=
  popAllFuel_perm heap.length heap le_rfl

/-!
Subtree (Descendant) lemmas.
-/

theorem descendant_le : ∀ {i j : Nat}, Descendant i j → i ≤ j := by
  intro i j h
  induction h with
  | refl i => exact le_rfl
  | left i h ih => omega
  | right i h ih => omega

theorem descendant_trans : ∀ {i j k : Nat}, Descendant i j → Descendant j k →
    Descendant i k := by
  intro i j k h1
  induction h1 with
  | refl i => exact fun h2 => h2
  | left i h ih => exact fun h2 => .left i (ih h2)
  | right i h ih => exact fun h2 => .right i (ih h2)

theorem descendant_child {i j : Nat} (h : childEdge i j) : Descendant i j := by
  rcases h with rfl | rfl
  · exact .left i (.refl _)
  · exact .right i (.refl _)

theorem parent_formula {k : Nat} (hk : 0 < k) :
    childEdge ((k - 1) / 2) k := by
  unfold childEdge
  omega

theorem descendant_parent : ∀ {s k : Nat}, Descendant s k → k ≠ s →
    Descendant s ((k - 1) / 2) := by
  intro s k h
  induction h with
  | refl i => exact fun hne => absurd rfl hne
  | left i h ih =>
    rename_i kk
    intro _
    by_cases hk : kk = 2 * i + 1
    · subst hk
      have he : (2 * i + 1 - 1) / 2 = i := by omega
      rw [he]
      exact .refl i
    · exact .left i (ih hk)
  | right i h ih =>
    rename_i kk
    intro _
    by_cases hk : kk = 2 * i + 2
    · subst hk
      have he : (2 * i + 2 - 1) / 2 = i := by omega
      rw [he]
      exact .refl i
    · exact .right i (ih hk)

theorem descendant_of_child {s i j : Nat} (hj : Descendant s j) (hjs : j ≠ s)
    (hij : childEdge i j) : Descendant s i := by
  have hp := descendant_parent hj hjs
  have he : (j - 1) / 2 = i := by rcases hij with rfl | rfl <;> omega
  rwa [he] at hp

theorem descendant_zero : ∀ k, Descendant 0 k := by
  intro k
  induction k using Nat.strong_induction_on with
  | _ k IH =>
    rcases Nat.eq_zero_or_pos k with rfl | hpos
    · exact .refl 0
    · have hp : (k - 1) / 2 < k := by omega
      exact descendant_trans (IH _ hp) (descendant_child (parent_formula hpos))

/-!
Heap restoration: heapq._siftdown re-establishes the heap invariant on the
subtree rooted at s when called at a position whose subtree is heap-ordered
except around the hole at pos, with newitem destined for the hole.
-/

theorem siftdownAux_outside (s : Nat) (ni : Entry) :
    ∀ pos (l : List Entry), Descendant s pos →
      ∀ k, ¬ Descendant s k →
        hget (siftdownAux l s pos ni) k = hget l k := by
  intro pos
  induction pos using Nat.strong_induction_on with
  | _ pos IH =>
    intro l hdes k hk
    have hkpos : k ≠ pos := fun he => hk (he ▸ hdes)
    rw [siftdownAux]
    split
    · next hlt =>
      dsimp only
      split
      · next hcmp =>
        have hp2 : (pos - 1) / 2 < pos := by omega
        have hdp : Descendant s ((pos - 1) / 2) :=
          descendant_parent hdes (by omega)
        rw [IH ((pos - 1) / 2) hp2 _ hdp k hk, hget_set_ne _ _ _ _ hkpos.symm]
      · rw [hget_set_ne _ _ _ _ hkpos.symm]
    · rw [hget_set_ne _ _ _ _ hkpos.symm]

theorem siftdownAux_restore (s : Nat) (ni : Entry) :
    ∀ pos (l : List Entry), Descendant s pos → pos < l.length →
      (∀ i j, Descendant s i → childEdge i j → j < l.length → i ≠ pos →
        j ≠ pos → entLe (hget l i) (hget l j)) →
      (∀ j, childEdge pos j → j < l.length → entLe ni (hget l j)) →
      (s < pos → ∀ j, childEdge pos j → j < l.length →
        entLe (hget l ((pos - 1) / 2)) (hget l j)) →
      ∀ i j, Descendant s i → childEdge i j →
        j < (siftdownAux l s pos ni).length →
        entLe (hget (siftdownAux l s pos ni) i)
          (hget (siftdownAux l s pos ni) j) := by
  intro pos
  induction pos using Nat.strong_induction_on with
  | _ pos IH =>
    intro l hdes hpos m1 m2 m3
    have hsle : s ≤ pos := descendant_le hdes
    rw [siftdownAux]
    split
    · next hlt =>
      dsimp only
      split
      · next hcmp =>
        -- recursive case: move the parent value down into the hole
        have hppar : childEdge ((pos - 1) / 2) pos := parent_formula (by omega)
        have hp2 : (pos - 1) / 2 < pos := by omega
        have hdp : Descendant s ((pos - 1) / 2) :=
          descendant_parent hdes (by omega)
        refine IH ((pos - 1) / 2) hp2 _ hdp
          (by simp only [List.length_set]; omega) ?_ ?_ ?_
        · -- m1 for the new hole at the parent
          intro i j hdi hij hjl hip hjp
          rw [List.length_set] at hjl
          rcases eq_or_ne pos i with rfl | hipos
          · -- edges out of the filled hole: bounded by the parent value (m3)
            have hjpos : j ≠ pos := by rcases hij with rfl | rfl <;> omega
            rw [hget_set_self _ _ _ hpos, hget_set_ne _ _ _ _ hjpos.symm]
            exact m3 hlt j hij hjl
          · rcases eq_or_ne pos j with rfl | hjpos
            · -- the parent of pos is the new hole, excluded
              have hie : i = (pos - 1) / 2 := by
                rcases hij with h1 | h1 <;> omega
              exact absurd hie hip
            · rw [hget_set_ne _ _ _ _ hipos, hget_set_ne _ _ _ _ hjpos]
              exact m1 i j hdi hij hjl (Ne.symm hipos) (Ne.symm hjpos)
        · -- m2: newitem is below both children of the new hole
          intro j hij hjl
          rw [List.length_set] at hjl
          rcases eq_or_ne pos j with rfl | hjpos
          · rw [hget_set_self _ _ _ hpos]
            exact entLe_of_entLt hcmp
          · rw [hget_set_ne _ _ _ _ hjpos]
            exact entLe_trans (entLe_of_entLt hcmp)
              (m1 ((pos - 1) / 2) j hdp hij hjl (by omega) (Ne.symm hjpos))
        · -- m3 for the new hole
          intro hsp j hij hjl
          rw [List.length_set] at hjl
          have hp1 : 0 < (pos - 1) / 2 := by omega
          have hglt : ((pos - 1) / 2 - 1) / 2 < (pos - 1) / 2 := by omega
          have hgpos : ((pos - 1) / 2 - 1) / 2 ≠ pos := by omega
          have hgpar : childEdge (((pos - 1) / 2 - 1) / 2) ((pos - 1) / 2) :=
            parent_formula hp1
          have hdg : Descendant s (((pos - 1) / 2 - 1) / 2) :=
            descendant_parent hdp (by omega)
          have hgp : entLe (hget l (((pos - 1) / 2 - 1) / 2))
              (hget l ((pos - 1) / 2)) :=
            m1 _ _ hdg hgpar (by omega) hgpos (by omega)
          rcases eq_or_ne pos j with rfl | hjpos
          · rw [hget_set_ne _ _ _ _ hgpos.symm, hget_set_self _ _ _ hpos]
            exact hgp
          · rw [hget_set_ne _ _ _ _ hgpos.symm, hget_set_ne _ _ _ _ hjpos]
            exact entLe_trans hgp
              (m1 ((pos - 1) / 2) j hdp hij hjl (by omega) (Ne.symm hjpos))
      · next hcmp =>
        -- loop exit: place newitem at pos
        intro i j hdi hij hjl
        rw [List.length_set] at hjl
        rcases eq_or_ne pos i with rfl | hipos
        · have hjpos : j ≠ pos := by rcases hij with rfl | rfl <;> omega
          rw [hget_set_self _ _ _ hpos, hget_set_ne _ _ _ _ hjpos.symm]
          exact m2 j hij hjl
        · rcases eq_or_ne pos j with rfl | hjpos
          · have hie : i = (pos - 1) / 2 := by
              rcases hij with h1 | h1 <;> omega
            rw [hget_set_ne _ _ _ _ hipos, hget_set_self _ _ _ hpos]
            rw [hie]
            exact entLe_of_not_entLt hcmp
          · rw [hget_set_ne _ _ _ _ hipos, hget_set_ne _ _ _ _ hjpos]
            exact m1 i j hdi hij hjl (Ne.symm hipos) (Ne.symm hjpos)
    · next hlt =>
      -- pos = s: place newitem at the subtree root
      have hps : pos = s := by omega
      intro i j hdi hij hjl
      rw [List.length_set] at hjl
      rcases eq_or_ne pos i with rfl | hipos
      · have hjpos : j ≠ pos := by rcases hij with rfl | rfl <;> omega
        rw [hget_set_self _ _ _ hpos, hget_set_ne _ _ _ _ hjpos.symm]
        exact m2 j hij hjl
      · have hjpos : j ≠ pos := by
          intro he
          have hile : s ≤ i := descendant_le hdi
          rcases hij with rfl | rfl <;> omega
        rw [hget_set_ne _ _ _ _ hipos, hget_set_ne _ _ _ _ hjpos.symm]
        exact m1 i j hdi hij hjl (Ne.symm hipos) hjpos

theorem siftupAux_outside (s : Nat) (ni : Entry) :
    ∀ n pos (l : List Entry), l.length - pos ≤ n → Descendant s pos →
      pos < l.length → ∀ k, ¬ Descendant s k →
        hget (siftupAux l s pos ni) k = hget l k := by
  intro n
  induction n with
  | zero => intro pos l hn hdes hpos k hk; omega
  | succ n IH =>
    intro pos l hn hdes hpos k hk
    have hkpos : k ≠ pos := fun he => hk (he ▸ hdes)
    rw [siftupAux]
    split
    · next hchild =>
      dsimp only
      have hcl : pickChild l (2 * pos + 1) < l.length :=
        pickChild_lt l (2 * pos + 1) hchild
      have hcc := pickChild_cases l (2 * pos + 1)
      have hcgt : pos < pickChild l (2 * pos + 1) := by
        rcases hcc with hc | hc <;> omega
      have hdc : Descendant s (pickChild l (2 * pos + 1)) := by
        refine descendant_trans hdes (descendant_child ?_)
        rcases hcc with hc | hc <;> rw [hc]
        · exact Or.inl rfl
        · exact Or.inr (by omega)
      rw [IH (pickChild l (2 * pos + 1)) _
        (by simp only [List.length_set]; omega) hdc
        (by simp only [List.length_set]; omega) k hk]
      exact hget_set_ne _ _ _ _ hkpos.symm
    · next hchild =>
      rw [siftdownAux_outside s ni pos _ hdes k hk]
      exact hget_set_ne _ _ _ _ hkpos.symm

theorem siftupAux_restore (s : Nat) (ni : Entry) :
    ∀ n pos (l : List Entry), l.length - pos ≤ n → Descendant s pos →
      pos < l.length →
      (∀ i j, Descendant s i → childEdge i j → j < l.length → i ≠ pos →
        entLe (hget l i) (hget l j)) →
      (s < pos → ∀ j, childEdge pos j → j < l.length →
        entLe (hget l pos) (hget l j)) →
      ∀ i j, Descendant s i → childEdge i j →
        j < (siftupAux l s pos ni).length →
        entLe (hget (siftupAux l s pos ni) i)
          (hget (siftupAux l s pos ni) j) := by
  intro n
  induction n with
  | zero => intro pos l hn hdes hpos ha hb2; omega
  | succ n IH =>
    intro pos l hn hdes hpos ha hb2
    have hsle : s ≤ pos := descendant_le hdes
    rw [siftupAux]
    split
    · next hchild =>
      dsimp only
      have hcl : pickChild l (2 * pos + 1) < l.length :=
        pickChild_lt l (2 * pos + 1) hchild
      have hcc := pickChild_cases l (2 * pos + 1)
      have hcgt : pos < pickChild l (2 * pos + 1) := by
        rcases hcc with hc | hc <;> omega
      have hce : childEdge pos (pickChild l (2 * pos + 1)) := by
        rcases hcc with hc | hc <;> rw [hc]
        · exact Or.inl rfl
        · exact Or.inr (by omega)
      have hdc : Descendant s (pickChild l (2 * pos + 1)) :=
        descendant_trans hdes (descendant_child hce)
      have hmin : ∀ j, childEdge pos j → j < l.length →
          entLe (hget l (pickChild l (2 * pos + 1))) (hget l j) := by
        intro j hj hjl
        refine pickChild_min l (2 * pos + 1) j hchild ?_ hjl
        rcases hj with rfl | rfl
        · exact Or.inl rfl
        · exact Or.inr (by omega)
      refine IH (pickChild l (2 * pos + 1)) _
        (by simp only [List.length_set]; omega) hdc
        (by simp only [List.length_set]; omega) ?_ ?_
      · -- invariant (a) for the new hole at the chosen child
        intro i j hdi hij hjl hic
        rw [List.length_set] at hjl
        rcases eq_or_ne pos i with rfl | hipos
        · -- edges out of the filled hole hold the moved child value
          have hjpos : j ≠ pos := by rcases hij with rfl | rfl <;> omega
          rw [hget_set_self _ _ _ hpos, hget_set_ne _ _ _ _ hjpos.symm]
          exact hmin j hij hjl
        · rcases eq_or_ne pos j with rfl | hjpos
          · -- edge into the old hole from its parent
            have hie : i = (pos - 1) / 2 := by
              rcases hij with h1 | h1 <;> omega
            have hlt2 : s < pos := by
              rcases Nat.lt_or_ge s pos with h2 | h2
              · exact h2
              · exfalso
                have hile : s ≤ i := descendant_le hdi
                rcases hij with h1 | h1 <;> omega
            rw [hget_set_ne _ _ _ _ hipos, hget_set_self _ _ _ hpos]
            exact entLe_trans (ha i pos hdi hij hpos (Ne.symm hipos))
              (hb2 hlt2 (pickChild l (2 * pos + 1)) hce hcl)
          · rw [hget_set_ne _ _ _ _ hipos, hget_set_ne _ _ _ _ hjpos]
            exact ha i j hdi hij hjl (Ne.symm hipos)
      · -- invariant (b2) for the new hole
        intro hsc j hij hjl
        rw [List.length_set] at hjl
        have hjgt : pos < j := by rcases hij with rfl | rfl <;> omega
        rw [hget_set_ne _ _ _ _ (by omega), hget_set_ne _ _ _ _ (by omega)]
        exact ha (pickChild l (2 * pos + 1)) j hdc hij hjl (by omega)
    · next hchild =>
      -- leaf reached: place newitem and sift it up with _siftdown
      refine siftdownAux_restore s ni pos _ hdes
        (by simp only [List.length_set]; omega) ?_ ?_ ?_
      · intro i j hdi hij hjl hip hjp
        rw [List.length_set] at hjl
        rw [hget_set_ne _ _ _ _ (Ne.symm hip), hget_set_ne _ _ _ _ (Ne.symm hjp)]
        exact ha i j hdi hij hjl hip
      · intro j hij hjl
        rw [List.length_set] at hjl
        exact absurd hjl (by rcases hij with rfl | rfl <;> omega)
      · intro hsp j hij hjl
        rw [List.length_set] at hjl
        exact absurd hjl (by rcases hij with rfl | rfl <;> omega)

/-- heapq._siftup at s restores the heap invariant on the subtree rooted at s
    when both child subtrees are heap-ordered, and touches nothing outside
    that subtree. -/
theorem siftup_restore (l : List Entry) (s : Nat) (hs : s < l.length)
    (H1 : ∀ i j, Descendant s i → childEdge i j → j < l.length → i ≠ s →
      entLe (hget l i) (hget l j)) :
    (∀ i j, Descendant s i → childEdge i j → j < (siftup l s).length →
      entLe (hget (siftup l s) i) (hget (siftup l s) j)) ∧
    (∀ k, ¬ Descendant s k → hget (siftup l s) k = hget l k) := by
  constructor
  · intro i j hdi hij hjl
    exact siftupAux_restore s (hget l s) (l.length - s) s l le_rfl (.refl s) hs
      H1 (fun hss => absurd hss (lt_irrefl s)) i j hdi hij hjl
  · intro k hk
    exact siftupAux_outside s (hget l s) (l.length - s) s l le_rfl (.refl s) hs
      k hk

theorem heapifyLoop_isHeap :
    ∀ k (x : List Entry), 2 * k ≤ x.length →
      (∀ i j, k ≤ i → childEdge i j → j < x.length →
        entLe (hget x i) (hget x j)) →
      IsHeap (heapifyLoop k x) := by
  intro k
  induction k with
  | zero =>
    intro x _ hpart
    exact fun i j hij hjl => hpart i j (Nat.zero_le i) hij hjl
  | succ k IH =>
    intro x hk hpart
    have hs : k < x.length := by omega
    have hsl : (siftup x k).length = x.length := (siftup_perm x k hs).length_eq
    obtain ⟨hp1, hp2⟩ := siftup_restore x k hs
      (fun i j hdi hij hjl hik =>
        hpart i j (by have := descendant_le hdi; omega) hij hjl)
    refine IH (siftup x k) (by omega) ?_
    intro i j hile hij hjl
    rw [hsl] at hjl
    by_cases hdi : Descendant k i
    · exact hp1 i j hdi hij (by omega)
    · have hjne : j ≠ k := by
        intro he
        rcases hij with h1 | h1 <;> omega
      have hdj : ¬ Descendant k j := fun hdj =>
        hdi (descendant_of_child hdj hjne hij)
      have hik : i ≠ k := fun he => hdi (he ▸ Descendant.refl k)
      rw [hp2 i hdi, hp2 j hdj]
      exact hpart i j (by omega) hij hjl

/-- heapq.heapify establishes the binary min-heap invariant. -/
theorem heapify_isHeap (x : List Entry) : IsHeap (heapify x) := by
  refine heapifyLoop_isHeap (x.length / 2) x (by omega) ?_
  intro i j hile hij hjl
  exact absurd hjl (by rcases hij with rfl | rfl <;> omega)

/-- In a heap the root is a minimum. -/
theorem isHeap_root_min (l : List Entry) (hl : IsHeap l) :
    ∀ j, j < l.length → entLe (hget l 0) (hget l j) := by
  intro j
  induction j using Nat.strong_induction_on with
  | _ j IH =>
    intro hj
    rcases Nat.eq_zero_or_pos j with rfl | hpos
    · exact entLe_refl _
    · have hpar := parent_formula hpos
      have hple : (j - 1) / 2 < j := by omega
      exact entLe_trans (IH _ hple (by omega)) (hl ((j - 1) / 2) j hpar hj)

theorem isHeap_root_min_mem (l : List Entry) (hl : IsHeap l) :
    ∀ x ∈ l, entLe (hget l 0) x := by
  intro x hx
  obtain ⟨j, hj, he⟩ := List.mem_iff_getElem.mp hx
  have hg : hget l j = x := by
    rw [hget, List.getD_eq_getElem _ _ hj, he]
  rw [← hg]
  exact isHeap_root_min l hl j hj

theorem isHeap_nil : IsHeap [] := by
  intro i j hij hjl
  simp at hjl

/-- heappop pops a minimum entry and preserves the heap invariant. -/
theorem heappop_isHeap (heap : List Entry) (e : Entry) (rest : List Entry)
    (hheap : IsHeap heap) (h : heappop heap = some (e, rest)) :
    IsHeap rest ∧ ∀ x ∈ heap, entLe e x := by
  cases heap with
  | nil => simp [heappop] at h
  | cons x xs =>
    simp only [heappop] at h
    split at h
    · next hemp =>
      have hxs : xs = [] := (dropLast_isEmpty_cases x xs).1 hemp
      subst hxs
      simp only [Option.some.injEq, Prod.mk.injEq] at h
      constructor
      · rw [← h.2]
        simp only [List.dropLast_single]
        exact isHeap_nil
      · intro y hy
        have hyx : y = x := by simpa using hy
        have hex : e = x := by
          have := h.1
          simp [List.getLast] at this
          exact this.symm
        rw [hyx, hex]
        exact entLe_refl x
    · next hemp =>
      have h0 : 0 < (x :: xs).dropLast.length :=
        (dropLast_isEmpty_cases x xs).2 (by simpa using hemp)
      have hlen : (x :: xs).dropLast.length = xs.length := by simp
      simp only [Option.some.injEq, Prod.mk.injEq] at h
      have hlast := List.dropLast_append_getLast (l := x :: xs) (by simp)
      -- the working list after moving the last entry to the root
      have hset0 : 0 < ((x :: xs).dropLast.set 0
          ((x :: xs).getLast (by simp))).length := by
        simpa using h0
      have hH1 : ∀ i j, Descendant 0 i → childEdge i j →
          j < ((x :: xs).dropLast.set 0 ((x :: xs).getLast (by simp))).length →
          i ≠ 0 →
          entLe (hget ((x :: xs).dropLast.set 0 ((x :: xs).getLast (by simp))) i)
            (hget ((x :: xs).dropLast.set 0 ((x :: xs).getLast (by simp))) j) := by
        intro i j hdi hij hjl hi0
        rw [List.length_set] at hjl
        have hij2 : i < j := by rcases hij with rfl | rfl <;> omega
        have hj0 : j ≠ 0 := by omega
        rw [hget_set_ne _ _ _ _ (Ne.symm hi0), hget_set_ne _ _ _ _ (Ne.symm hj0),
          hget_dropLast _ _ (by simp; omega), hget_dropLast _ _ (by simp; omega)]
        exact hheap i j hij (by simp at hjl ⊢; omega)
      obtain ⟨hp1, hp2⟩ := siftup_restore
        ((x :: xs).dropLast.set 0 ((x :: xs).getLast (by simp))) 0 hset0 hH1
      constructor
      · rw [← h.2]
        intro i j hij hjl
        exact hp1 i j (descendant_zero i) hij hjl
      · intro y hy
        have he0 : e = hget (x :: xs) 0 := by
          rw [← h.1, hget_dropLast _ _ (by simp; omega)]
        obtain ⟨j, hj, hje⟩ := List.mem_iff_getElem.mp hy
        have hg : hget (x :: xs) j = y := by
          rw [hget, List.getD_eq_getElem _ _ hj, hje]
        rw [he0, ← hg]
        exact isHeap_root_min _ hheap j hj

theorem popAllFuel_sorted :
    ∀ fuel (heap : List Entry), heap.length ≤ fuel → IsHeap heap →
      (popAllFuel fuel heap).Pairwise entLe := by
  intro fuel
  induction fuel with
  | zero => intro heap _ _; exact List.Pairwise.nil
  | succ fuel IH =>
    intro heap hle hheap
    cases hp : heappop heap with
    | none => simp [popAllFuel, hp]
    | some pr =>
      obtain ⟨e, rest⟩ := pr
      simp only [popAllFuel, hp]
      obtain ⟨hrest, hmin⟩ := heappop_isHeap heap e rest hheap hp
      have hlen := heappop_length heap e rest hp
      refine List.Pairwise.cons ?_ (IH rest (by omega) hrest)
      intro y hy
      have hyr : y ∈ rest :=
        (popAllFuel_perm fuel rest (by omega)).mem_iff.mp hy
      have hyh : y ∈ heap :=
        (heappop_perm heap e rest hp).mem_iff.mp (List.mem_cons_of_mem e hyr)
      exact hmin y hyh

/-- Popping every entry of a heap yields them in non-decreasing tuple
    order. -/
theorem popAll_sorted (heap : List Entry) (h : IsHeap heap) :
    (popAll heap).Pairwise entLe :=
  popAllFuel_sorted heap.length heap le_rfl h

/-!
Claims C3, C6, C7, C8, C9.
-/

/-- C3 counterexample: constructing the processor with the invalid batch size
    -5 does not fail; it returns normally with the invalid value stored
    verbatim, so the invalid batch size is silently accepted. -/
theorem c3_counterexample :
    (bulk_processor_init (-5) 500000 false).1 =
      { batch_size := -5, high_priority_threshold := 500000,
        has_messenger := false } := rfl

/-- C3 (amended): construction performs no validation at all: every batch
    size, including zero and negative ones, is accepted and stored unchanged,
    neither rejected nor clamped. -/
theorem c3_init_accepts_any_batch_size (batch_size : ℤ) (threshold : ℚ)
    (has_messenger : Bool) :
    (bulk_processor_init batch_size threshold has_messenger).1.batch_size =
        batch_size ∧
      (bulk_processor_init batch_size threshold
            has_messenger).1.high_priority_threshold = threshold :=
  ⟨rfl, rfl⟩

/-- C6: get_risk_level buckets by percentage of the theoretical maximum
    (sum of 10 times each factor weight, which is 450): percentage exactly
    30 gives LOW, exactly 60 MEDIUM, exactly 80 HIGH, above 80 CRITICAL. -/
theorem c6_risk_level_boundaries (ws : ℚ) :
    (FACTOR_WEIGHTS.map (fun fw => 10 * fw.2)).sum = 450 ∧
    (ws / 450 * 100 = 30 → get_risk_level ws = "LOW") ∧
    (ws / 450 * 100 = 60 → get_risk_level ws = "MEDIUM") ∧
    (ws / 450 * 100 = 80 → get_risk_level ws = "HIGH") ∧
    (80 < ws / 450 * 100 → get_risk_level ws = "CRITICAL") := by
  have hlvl : get_risk_level ws =
      if ws / 450 * 100 ≤ 30 then "LOW"
      else if ws / 450 * 100 ≤ 60 then "MEDIUM"
      else if ws / 450 * 100 ≤ 80 then "HIGH"
      else "CRITICAL" := by
    unfold get_risk_level
    norm_num [FACTOR_WEIGHTS]
  refine ⟨by decide, ?_, ?_, ?_, ?_⟩ <;> intro h <;> rw [hlvl]
  · rw [h]; norm_num
  · rw [h]; norm_num
  · rw [h]; norm_num
  · split_ifs with h1 h2 h3 <;> first | rfl | linarith

/-- C6 witness at weighted scores 135, 270, 360 and 450 (percentages 30, 60,
    80 and 100 of the 450 maximum). -/
theorem c6_witness :
    get_risk_level 135 = "LOW" ∧ get_risk_level 270 = "MEDIUM" ∧
      get_risk_level 360 = "HIGH" ∧ get_risk_level 450 = "CRITICAL" :=
  ⟨(c6_risk_level_boundaries 135).2.1 (by norm_num),
   (c6_risk_level_boundaries 270).2.2.1 (by norm_num),
   (c6_risk_level_boundaries 360).2.2.2.1 (by norm_num),
   (c6_risk_level_boundaries 450).2.2.2.2 (by norm_num)⟩

/-- C7: scoring is deterministic: two debtors agreeing on debt, income, late
    payment count and the four categorical attributes receive, whenever
    scoring succeeds on both, the same total_score, risk_level and factor
    breakdown. -/
theorem c7_score_deterministic (d1 d2 : DebtorRec) (r1 r2 : ScoreResult)
    (hdebt : d1.total_debt_amount = d2.total_debt_amount)
    (hinc : d1.monthly_income = d2.monthly_income)
    (hlate : d1.late_payments_count = d2.late_payments_count)
    (hemp : d1.employment_status = d2.employment_status)
    (hcon : d1.contract_type = d2.contract_type)
    (hind : d1.industry_sector = d2.industry_sector)
    (hfam : d1.family_situation = d2.family_situation)
    (h1 : calculate_risk_score d1 = Except.ok r1)
    (h2 : calculate_risk_score d2 = Except.ok r2) :
    r1.total_score = r2.total_score ∧ r1.risk_level = r2.risk_level ∧
      r1.normalized_scores = r2.normalized_scores := by
  have hns : normalized_scores_of d1 = normalized_scores_of d2 := by
    unfold normalized_scores_of normalize_debt_ratio normalize_payment_history
      get_employment_risk get_contract_risk get_industry_risk get_family_risk
    rw [hdebt, hinc, hlate, hemp, hcon, hind, hfam]
  cases hu1 : d1.upsert_error with
  | some m => simp [calculate_risk_score, hu1] at h1
  | none =>
    cases hu2 : d2.upsert_error with
    | some m => simp [calculate_risk_score, hu2] at h2
    | none =>
      simp only [calculate_risk_score, hu1, hu2, Except.ok.injEq] at h1 h2
      rw [← h1, ← h2]
      refine ⟨?_, ?_, ?_⟩ <;> simp [hns]

/-- Evaluation of the scorer on wd1. -/
theorem calculate_wd1 : calculate_risk_score wd1 = Except.ok wScore1 := by
  unfold calculate_risk_score normalized_scores_of normalize_debt_ratio
    normalize_payment_history get_employment_risk get_contract_risk
    get_industry_risk get_family_risk weighted_total get_risk_level
    wd1 wScore1 EMPLOYMENT_RISK_SCORES CONTRACT_RISK_SCORES
    INDUSTRY_RISK_SCORES FAMILY_RISK_SCORES FACTOR_WEIGHTS
  norm_num [List.lookup]

/-- Evaluation of the scorer on wd2. -/
theorem calculate_wd2 : calculate_risk_score wd2 = Except.ok wScore1 := by
  unfold calculate_risk_score normalized_scores_of normalize_debt_ratio
    normalize_payment_history get_employment_risk get_contract_risk
    get_industry_risk get_family_risk weighted_total get_risk_level
    wd2 wd1 wScore1 EMPLOYMENT_RISK_SCORES CONTRACT_RISK_SCORES
    INDUSTRY_RISK_SCORES FAMILY_RISK_SCORES FACTOR_WEIGHTS
  norm_num [List.lookup]

/-- C7 witness: wd1 and wd2 agree on all scoring attributes and both score to
    wScore1. -/
theorem c7_witness :
    wScore1.total_score = wScore1.total_score ∧
      wScore1.risk_level = wScore1.risk_level ∧
      wScore1.normalized_scores = wScore1.normalized_scores :=
  c7_score_deterministic wd1 wd2 wScore1 wScore1 rfl rfl rfl rfl rfl rfl rfl
    calculate_wd1 calculate_wd2

/-- Helper for C8: when every input result carries a debtor_id, the payload
    keeps one item per input result. -/
theorem create_payload_length :
    ∀ (results : List PResult) (sent_at : String),
      (∀ r ∈ results, r.debtor_id.isSome) →
      (create_payload results sent_at).length = results.length := by
  intro results sent_at
  induction results with
  | nil => intro _; rfl
  | cons r rs ih =>
    intro hall
    rcases Option.isSome_iff_exists.mp (hall r (List.mem_cons_self r rs)) with
      ⟨d, hd⟩
    have htail := ih fun x hx => hall x (List.mem_cons_of_mem r hx)
    simp only [create_payload, List.filterMap_cons, hd, List.length_cons]
    simp only [create_payload] at htail
    rw [htail]

/-- C8 counterexample: a single result without a debtor_id is filtered out of
    the transmitted payload (which is empty) yet the returned count is 1, so
    the count does not equal the number of accepted items. -/
theorem c8_counterexample :
    (send_high_priority_batch [orphanResult] "t").1 = 1 ∧
      (send_high_priority_batch [orphanResult] "t").2 = some [] :=
  ⟨rfl, rfl⟩

/-- C8 (amended): the returned count is the length of the input list; items
    skipped by payload construction (missing debtor_id) are still counted.
    When every input item carries a debtor_id, as all BulkProcessor-built
    results do, the count does equal the number of payload items. -/
theorem c8_notifier_count (results : List PResult) (sent_at : String) :
    (send_high_priority_batch results sent_at).1 = results.length ∧
      ((∀ r ∈ results, r.debtor_id.isSome) →
        (create_payload results sent_at).length = results.length) := by
  constructor
  · rcases results with - | ⟨r, rs⟩ <;> rfl
  · exact create_payload_length results sent_at

/-- C8 witness on a one-element list whose result carries a debtor_id. -/
theorem c8_witness :
    (send_high_priority_batch [wResult] "t").1 = 1 ∧
      (create_payload [wResult] "t").length = 1 :=
  ⟨(c8_notifier_count [wResult] "t").1,
   (c8_notifier_count [wResult] "t").2 (by decide)⟩

/-- C9: notifying with an empty result list returns count 0 and performs no
    transmission: no payload is built or sent. -/
theorem c9_notifier_empty_input (sent_at : String) :
    send_high_priority_batch [] sent_at = (0, none) := rfl

/-!
Characterization of the queue build (claims C1, C4).
-/

theorem build_priority_tuples_shift :
    ∀ (debtors : List DebtorRec) (ts : List Entry) (st : Stats),
      List.foldl
        (fun acc debtor =>
          match calculate_priority debtor with
          | .ok priority => (acc.1 ++ [(-priority, debtor.id)], acc.2)
          | .error e =>
              (acc.1, record_error acc.2 debtor.id e "priority_calculation"))
        (ts, st) debtors =
      (ts ++ (build_priority_tuples st debtors).1,
       (build_priority_tuples st debtors).2) := by
  intro debtors
  induction debtors with
  | nil => intro ts st; simp [build_priority_tuples]
  | cons d ds ih =>
    intro ts st
    simp only [build_priority_tuples, List.foldl_cons]
    cases hc : calculate_priority d with
    | ok p =>
      simp only [hc, List.nil_append]
      rw [ih, ih]
      simp [List.append_assoc]
    | error e =>
      simp only [hc, List.nil_append]
      rw [ih, ih]
      simp

theorem build_priority_tuples_cons (st : Stats) (d : DebtorRec)
    (ds : List DebtorRec) :
    build_priority_tuples st (d :: ds) =
      match calculate_priority d with
      | .ok p => ((-p, d.id) :: (build_priority_tuples st ds).1,
                  (build_priority_tuples st ds).2)
      | .error e =>
          build_priority_tuples
            (record_error st d.id e "priority_calculation") ds := by
  cases hc : calculate_priority d with
  | ok p =>
    simp only [build_priority_tuples, List.foldl_cons, hc, List.nil_append]
    rw [build_priority_tuples_shift]
    simp [build_priority_tuples]
  | error e =>
    simp only [build_priority_tuples, List.foldl_cons, hc, List.nil_append]

theorem build_priority_tuples_spec :
    ∀ (debtors : List DebtorRec) (st : Stats),
      (build_priority_tuples st debtors).1 =
        debtors.filterMap (fun d =>
          match calculate_priority d with
          | .ok p => some ((-p, d.id) : Entry)
          | .error _ => none) ∧
      (build_priority_tuples st debtors).2 =
        { st with errors := st.errors ++ debtors.filterMap (fun d =>
            match calculate_priority d with
            | .ok _ => none
            | .error e => some { debtor_id := d.id, error_message := e,
                                 stage := "priority_calculation" }) } := by
  intro debtors
  induction debtors with
  | nil => intro st; constructor <;> simp [build_priority_tuples]
  | cons d ds ih =>
    intro st
    rw [build_priority_tuples_cons]
    cases hc : calculate_priority d with
    | ok p =>
      constructor
      · simp only [List.filterMap_cons, hc]
        rw [(ih st).1]
      · simp only [List.filterMap_cons, hc]
        rw [(ih st).2]
    | error e =>
      constructor
      · simp only [List.filterMap_cons, hc]
        rw [(ih _).1]
      · simp only [List.filterMap_cons, hc]
        rw [(ih _).2]
        simp [record_error, List.append_assoc]

theorem build_priority_queue_fst (st : Stats) (debtors : List DebtorRec) :
    (build_priority_queue st debtors).1 =
      heapify (build_priority_tuples st debtors).1 := rfl

theorem build_priority_queue_snd (st : Stats) (debtors : List DebtorRec) :
    (build_priority_queue st debtors).2 =
      (build_priority_tuples st debtors).2 := rfl

/-- C1: popping every entry of a freshly built queue yields the composite
    priorities in non-increasing order, and the popped entries are exactly
    the surviving priority tuples of the build. -/
theorem c1_popAll_nonincreasing (st : Stats) (debtors : List DebtorRec) :
    ((popAll (build_priority_queue st debtors).1).map
        (fun ent => -ent.1)).Pairwise (· ≥ ·) ∧
      List.Perm (popAll (build_priority_queue st debtors).1)
        (build_priority_tuples st debtors).1 := by
  constructor
  · have hsorted : (popAll (build_priority_queue st debtors).1).Pairwise entLe := by
      apply popAll_sorted
      rw [build_priority_queue_fst]
      exact heapify_isHeap _
    refine List.Pairwise.map _ ?_ hsorted
    intro a b hab
    have h1 : a.1 ≤ b.1 := entLe_fst hab
    simp only [ge_iff_le]
    linarith
  · rw [build_priority_queue_fst]
    exact (popAll_perm _).trans (heapify_perm _)

theorem filter_filterMap_errors_nil (d : DebtorRec) :
    ∀ (ds : List DebtorRec), d.id ∉ ds.map (fun x => x.id) →
      (ds.filterMap (fun x =>
          match calculate_priority x with
          | .ok _ => none
          | .error e => some ({ debtor_id := x.id, error_message := e,
                                stage := "priority_calculation" } :
                                ErrorRecord))).filter
        (fun r => r.debtor_id == d.id) = [] := by
  intro ds
  induction ds with
  | nil => intro _; rfl
  | cons x ds ih =>
    intro hmem
    have hx : x.id ≠ d.id := by
      intro he
      exact hmem (by simp [he])
    have hds : d.id ∉ ds.map (fun x => x.id) := by
      intro hc
      exact hmem (by simp [hc])
    simp only [List.filterMap_cons]
    cases hc : calculate_priority x with
    | ok p => exact ih hds
    | error e =>
      rw [List.filter_cons]
      have hbeq : (({ debtor_id := x.id, error_message := e,
                      stage := "priority_calculation" } :
                      ErrorRecord).debtor_id == d.id) = false := by
        simpa using hx
      rw [hbeq]
      simp only [Bool.false_eq_true, if_false]
      exact ih hds

theorem filter_filterMap_errors_single (d : DebtorRec) (e : String) :
    ∀ (ds : List DebtorRec), (ds.map (fun x => x.id)).Nodup → d ∈ ds →
      calculate_priority d = .error e →
      (ds.filterMap (fun x =>
          match calculate_priority x with
          | .ok _ => none
          | .error e2 => some ({ debtor_id := x.id, error_message := e2,
                                 stage := "priority_calculation" } :
                                 ErrorRecord))).filter
        (fun r => r.debtor_id == d.id) =
      [{ debtor_id := d.id, error_message := e,
         stage := "priority_calculation" }] := by
  intro ds
  induction ds with
  | nil => intro _ hmem _; simp at hmem
  | cons x ds ih =>
    intro hnodup hmem herr
    have hsplit : (∀ y ∈ ds, ¬ y.id = x.id) ∧
        (ds.map (fun z => z.id)).Nodup := by
      simpa using hnodup
    rcases List.mem_cons.mp hmem with rfl | hdm
    · -- the failing account is at the head
      have hhead : d.id ∉ ds.map (fun y => y.id) := by
        intro hc
        obtain ⟨y, hy, hye⟩ := List.mem_map.mp hc
        exact hsplit.1 y hy hye
      simp only [List.filterMap_cons, herr]
      rw [List.filter_cons]
      simp only [beq_self_eq_true, if_true]
      rw [filter_filterMap_errors_nil d ds hhead]
    · -- the failing account is in the tail, and the head has a different id
      have hx : x.id ≠ d.id := fun he => hsplit.1 d hdm he.symm
      simp only [List.filterMap_cons]
      cases hc : calculate_priority x with
      | ok p => exact ih hsplit.2 hdm herr
      | error e2 =>
        rw [List.filter_cons]
        have hbeq : (({ debtor_id := x.id, error_message := e2,
                        stage := "priority_calculation" } :
                        ErrorRecord).debtor_id == d.id) = false := by
          simpa using hx
        rw [hbeq]
        simp only [Bool.false_eq_true, if_false]
        exact ih hsplit.2 hdm herr

/-- C4: an account whose priority calculation fails during queue build
    contributes no entry to the returned heap, appends exactly one error
    record with stage priority_calculation to the ledger, and does not abort
    the build: every other account that scores successfully still gets its
    entry. -/
theorem c4_failed_account_isolated (st : Stats) (debtors : List DebtorRec)
    (d : DebtorRec) (e : String)
    (hnodup : (debtors.map (fun x => x.id)).Nodup)
    (hmem : d ∈ debtors)
    (herr : calculate_priority d = .error e) :
    (∀ ent ∈ (build_priority_queue st debtors).1, ent.2 ≠ d.id) ∧
    ((build_priority_queue st debtors).2.errors.filter
        (fun r => r.debtor_id == d.id) =
      st.errors.filter (fun r => r.debtor_id == d.id) ++
        [{ debtor_id := d.id, error_message := e,
           stage := "priority_calculation" }]) ∧
    (∀ d2 ∈ debtors, ∀ p, calculate_priority d2 = .ok p →
      (-p, d2.id) ∈ (build_priority_queue st debtors).1) := by
  obtain ⟨hts, hst⟩ := build_priority_tuples_spec debtors st
  have hinj : ∀ x ∈ debtors, ∀ y ∈ debtors, x.id = y.id → x = y := by
    intro x hx y hy hxy
    exact List.inj_on_of_nodup_map hnodup hx hy hxy
  refine ⟨?_, ?_, ?_⟩
  · intro ent hent
    have hmem2 : ent ∈ (build_priority_tuples st debtors).1 := by
      rw [build_priority_queue_fst] at hent
      exact (heapify_perm _).mem_iff.mp hent
    rw [hts] at hmem2
    obtain ⟨d2, hd2, hd2e⟩ := List.mem_filterMap.mp hmem2
    cases hc : calculate_priority d2 with
    | ok p =>
      rw [hc] at hd2e
      simp only [Option.some.injEq] at hd2e
      intro hid
      have hED : ent.2 = d2.id := by rw [← hd2e]
      have hd2d : d2 = d := hinj d2 hd2 d hmem (by rw [← hED, hid])
      rw [hd2d] at hc
      rw [hc] at herr
      exact Except.noConfusion herr
    | error e2 =>
      rw [hc] at hd2e
      exact Option.noConfusion hd2e
  · rw [build_priority_queue_snd, hst]
    simp only [List.filter_append]
    rw [filter_filterMap_errors_single d e debtors hnodup hmem herr]
  · intro d2 hd2 p hp
    rw [build_priority_queue_fst]
    refine (heapify_perm _).mem_iff.mpr ?_
    rw [hts]
    refine List.mem_filterMap.mpr ⟨d2, hd2, ?_⟩
    rw [hp]

/-- C4 witness: building from wd3 (cached score) and wd4 (failing upsert). -/
theorem c4_witness :
    (∀ ent ∈ (build_priority_queue stats0 [wd3, wd4]).1, ent.2 ≠ wd4.id) ∧
    ((build_priority_queue stats0 [wd3, wd4]).2.errors.filter
        (fun r => r.debtor_id == wd4.id) =
      stats0.errors.filter (fun r => r.debtor_id == wd4.id) ++
        [{ debtor_id := wd4.id, error_message := "boom",
           stage := "priority_calculation" }]) ∧
    (∀ d2 ∈ [wd3, wd4], ∀ p, calculate_priority d2 = .ok p →
      (-p, d2.id) ∈ (build_priority_queue stats0 [wd3, wd4]).1) :=
  c4_failed_account_isolated stats0 [wd3, wd4] wd4 "boom" (by decide)
    (by decide) rfl

/-!
The batch loop (claims C2, C5, C10).
-/

theorem process_batch_loop_spec (threshold : ℚ) (db : ℤ → Option DebtorRec)
    (now : String) :
    ∀ n (heap : List Entry) (st : Stats) (acc : List PResult),
      n ≤ heap.length →
      (process_batch_loop threshold db now n heap st acc).1.length =
          heap.length - n ∧
        (process_batch_loop threshold db now n heap st acc).2.2.length =
          acc.length + n := by
  intro n
  induction n with
  | zero => intro heap st acc _; exact ⟨by simp [process_batch_loop], by
      simp [process_batch_loop]⟩
  | succ n IH =>
    intro heap st acc hn
    cases hp : heappop heap with
    | none =>
      have : heap = [] := (heappop_none_iff heap).mp hp
      rw [this] at hn
      simp at hn
    | some pr =>
      obtain ⟨ent, heap1⟩ := pr
      have hlen := heappop_length heap ent heap1 hp
      simp only [process_batch_loop, hp]
      obtain ⟨h1, h2⟩ := IH heap1
        (process_entry threshold db now st ent).2
        (acc ++ [(process_entry threshold db now st ent).1]) (by omega)
      constructor
      · rw [h1]; omega
      · rw [h2]; simp; omega

/-- C2: process_batch returns exactly min(batchSize, queueLength) results -
    one per popped entry, success or error - and the heap shrinks by that
    same count; on an empty heap it returns an empty result list without
    failing. -/
theorem c2_process_batch_counts (cfg : BPConfig) (db : ℤ → Option DebtorRec)
    (now : String) (q : List Entry) (st : Stats) (bs : ℤ) (hbs : 0 ≤ bs) :
    ((process_batch cfg db now q st (some bs)).results.length : ℤ) =
        min bs (q.length : ℤ) ∧
      ((process_batch cfg db now q st (some bs)).heap.length : ℤ) =
        (q.length : ℤ) - min bs (q.length : ℤ) ∧
      (q = [] → (process_batch cfg db now q st (some bs)).results = [] ∧
        (process_batch cfg db now q st (some bs)).heap = []) := by
  have hit : (min bs (q.length : ℤ)).toNat ≤ q.length := by omega
  obtain ⟨h1, h2⟩ := process_batch_loop_spec cfg.high_priority_threshold db now
    ((min bs (q.length : ℤ)).toNat) q st [] hit
  have hres : (process_batch cfg db now q st (some bs)).results =
      (process_batch_loop cfg.high_priority_threshold db now
        ((min bs (q.length : ℤ)).toNat) q st []).2.2 := rfl
  have hheap : (process_batch cfg db now q st (some bs)).heap =
      (process_batch_loop cfg.high_priority_threshold db now
        ((min bs (q.length : ℤ)).toNat) q st []).1 := rfl
  refine ⟨?_, ?_, ?_⟩
  · rw [hres, h2]
    simp only [List.length_nil]
    omega
  · rw [hheap, h1]
    omega
  · intro hq
    have hlq : q.length = 0 := by rw [hq]; rfl
    constructor
    · apply List.length_eq_zero.mp
      rw [hres, h2]
      simp only [List.length_nil]
      omega
    · apply List.length_eq_zero.mp
      rw [hheap, h1]
      omega
/-- C2 witness: batch size 2 over a three-entry heap. -/
theorem c2_witness :
    ((process_batch wcfg1 wdb "t" wheap3 stats0 (some 2)).results.length : ℤ) =
        min 2 (wheap3.length : ℤ) ∧
      ((process_batch wcfg1 wdb "t" wheap3 stats0 (some 2)).heap.length : ℤ) =
        (wheap3.length : ℤ) - min 2 (wheap3.length : ℤ) ∧
      (wheap3 = [] →
        (process_batch wcfg1 wdb "t" wheap3 stats0 (some 2)).results = [] ∧
          (process_batch wcfg1 wdb "t" wheap3 stats0 (some 2)).heap = []) :=
  c2_process_batch_counts wcfg1 wdb "t" wheap3 stats0 2 (by omega)

theorem collect_high_priority_eq_filter (threshold : ℚ) :
    ∀ results : List PResult,
      collect_high_priority threshold results =
        results.filter (fun r => r.status == some "success" &&
          decide (threshold < r.priority_score.getD 0)) := by
  intro results
  induction results with
  | nil => rfl
  | cons r rs ih =>
    simp only [collect_high_priority]
    rw [List.filter_cons]
    by_cases hs : r.status = some "success"
    · rw [if_neg (not_not_intro hs)]
      by_cases hgt : r.priority_score.getD 0 > threshold
      · rw [if_pos hgt, ih, if_pos]
        simp [hs, hgt]
      · rw [if_neg hgt, ih, if_neg]
        simp only [Bool.and_eq_true, decide_eq_true_eq]
        intro hc
        exact hgt hc.2
    · rw [if_pos hs, ih, if_neg]
      simp only [Bool.and_eq_true, beq_iff_eq]
      intro hc
      exact hs hc.1

theorem notify_spec (cfg : BPConfig) (now : String) (st : Stats)
    (results : List PResult) (hm : cfg.has_messenger = true) :
    (notify_high_priority_debtors cfg now st results).2.getD [] =
      collect_high_priority cfg.high_priority_threshold results := by
  unfold notify_high_priority_debtors
  rw [if_pos hm]
  dsimp only
  cases he : (collect_high_priority cfg.high_priority_threshold results).isEmpty with
  | true =>
    rw [if_pos rfl, List.isEmpty_iff.mp he]
    rfl
  | false =>
    rw [if_neg (by simp)]
    rfl

/-- C5: after a batch, the messenger (when configured) is handed exactly the
    success results whose freshly computed priority_score strictly exceeds
    the threshold: no error result and nothing at or below the threshold. -/
theorem c5_notified_exactly_high_success (cfg : BPConfig)
    (db : ℤ → Option DebtorRec) (now : String) (q : List Entry) (st : Stats)
    (bso : Option ℤ) (hm : cfg.has_messenger = true) :
    (process_batch cfg db now q st bso).notified.getD [] =
        (process_batch cfg db now q st bso).results.filter
          (fun r => r.status == some "success" &&
            decide (cfg.high_priority_threshold < r.priority_score.getD 0)) ∧
      ∀ r ∈ (process_batch cfg db now q st bso).notified.getD [],
        r.status = some "success" ∧
          cfg.high_priority_threshold < r.priority_score.getD 0 := by
  have hnot : (process_batch cfg db now q st bso).notified =
      (notify_high_priority_debtors cfg now
        (process_batch_loop cfg.high_priority_threshold db now
          ((min (bso.getD cfg.batch_size) (q.length : ℤ)).toNat) q st []).2.1
        (process_batch_loop cfg.high_priority_threshold db now
          ((min (bso.getD cfg.batch_size) (q.length : ℤ)).toNat) q st []).2.2).2 :=
    rfl
  have hres : (process_batch cfg db now q st bso).results =
      (process_batch_loop cfg.high_priority_threshold db now
        ((min (bso.getD cfg.batch_size) (q.length : ℤ)).toNat) q st []).2.2 :=
    rfl
  constructor
  · rw [hnot, hres, notify_spec _ _ _ _ hm, collect_high_priority_eq_filter]
  · intro r hr
    rw [hnot, notify_spec _ _ _ _ hm, collect_high_priority_eq_filter] at hr
    obtain ⟨-, hcond⟩ := List.mem_filter.mp hr
    obtain ⟨h1, h2⟩ := Bool.and_eq_true_iff.mp hcond
    exact ⟨beq_iff_eq.mp h1, of_decide_eq_true h2⟩

/-- C5 witness: one successfully processed debtor above the threshold. -/
theorem c5_witness :
    (process_batch wcfgM wdb "t" [(-1, 1)] stats0 none).notified.getD [] =
        (process_batch wcfgM wdb "t" [(-1, 1)] stats0 none).results.filter
          (fun r => r.status == some "success" &&
            decide (wcfgM.high_priority_threshold < r.priority_score.getD 0)) ∧
      ∀ r ∈ (process_batch wcfgM wdb "t" [(-1, 1)] stats0 none).notified.getD [],
        r.status = some "success" ∧
          wcfgM.high_priority_threshold < r.priority_score.getD 0 :=
  c5_notified_exactly_high_success wcfgM wdb "t" [(-1, 1)] stats0 none rfl

theorem process_batch_shrinks (cfg : BPConfig) (db : ℤ → Option DebtorRec)
    (now : String) (q : List Entry) (st : Stats) (hq : q ≠ [])
    (hbs : 1 ≤ cfg.batch_size) :
    (process_batch cfg db now q st none).heap.length < q.length := by
  have hq1 : 1 ≤ q.length := List.length_pos.mpr hq
  have hit : (min cfg.batch_size (q.length : ℤ)).toNat ≤ q.length := by omega
  obtain ⟨h1, -⟩ := process_batch_loop_spec cfg.high_priority_threshold db now
    ((min cfg.batch_size (q.length : ℤ)).toNat) q st [] hit
  have hheap : (process_batch cfg db now q st none).heap =
      (process_batch_loop cfg.high_priority_threshold db now
        ((min cfg.batch_size (q.length : ℤ)).toNat) q st []).1 := rfl
  rw [hheap, h1]
  omega

theorem process_batch_no_progress (cfg : BPConfig) (db : ℤ → Option DebtorRec)
    (now : String) (q : List Entry) (st : Stats) (hbs : cfg.batch_size ≤ 0) :
    (process_batch cfg db now q st none).heap = q := by
  have h0 : (min cfg.batch_size (q.length : ℤ)).toNat = 0 := by omega
  show (process_batch_loop cfg.high_priority_threshold db now
      ((min cfg.batch_size (q.length : ℤ)).toNat) q st []).1 = q
  rw [h0]
  rfl

theorem process_all_loop_halts (cfg : BPConfig) (db : ℤ → Option DebtorRec)
    (now : String) (hbs : 1 ≤ cfg.batch_size) :
    ∀ fuel (q : List Entry) (st : Stats) (acc : List PResult) (bn : ℕ),
      q.length ≤ fuel →
      (process_all_loop cfg db now fuel q st acc bn).2.2.2.2 = true := by
  intro fuel
  induction fuel with
  | zero =>
    intro q st acc bn hlen
    have hq : q = [] := List.length_eq_zero.mp (by omega)
    subst hq
    rfl
  | succ fuel IH =>
    intro q st acc bn hlen
    cases hq : q.isEmpty with
    | true => simp [process_all_loop, hq]
    | false =>
      have hqne : q ≠ [] := by
        intro he
        rw [he] at hq
        exact Bool.noConfusion hq
      simp only [process_all_loop, hq, Bool.false_eq_true, if_false]
      refine IH _ _ _ _ ?_
      have := process_batch_shrinks cfg db now q st hqne hbs
      omega

theorem process_all_loop_stuck (cfg : BPConfig) (db : ℤ → Option DebtorRec)
    (now : String) (hbs : cfg.batch_size ≤ 0) :
    ∀ fuel (q : List Entry) (st : Stats) (acc : List PResult) (bn : ℕ),
      q ≠ [] →
      (process_all_loop cfg db now fuel q st acc bn).1 = q ∧
        (process_all_loop cfg db now fuel q st acc bn).2.2.2.2 = false := by
  intro fuel
  induction fuel with
  | zero =>
    intro q st acc bn hq
    have hqe : q.isEmpty = false := by
      cases hqb : q.isEmpty with
      | true => exact absurd (List.isEmpty_iff.mp hqb) hq
      | false => rfl
    exact ⟨rfl, hqe⟩
  | succ fuel IH =>
    intro q st acc bn hq
    have hqe : q.isEmpty = false := by
      cases hqb : q.isEmpty with
      | true => exact absurd (List.isEmpty_iff.mp hqb) hq
      | false => rfl
    simp only [process_all_loop, hqe, Bool.false_eq_true, if_false]
    rw [process_batch_no_progress cfg db now q st hbs]
    exact IH q _ _ _ hq

/-- C10: with batch_size at least 1, every process_batch call on a non-empty
    heap strictly shrinks it, so the drain loop of process_all_debtors
    reaches the empty heap within (initial length) iterations; with
    batch_size at most 0 and a non-empty heap the loop makes no progress and
    never reaches its exit condition, however much fuel it is given. -/
theorem c10_drain_termination (cfg : BPConfig) (db : ℤ → Option DebtorRec)
    (now : String) :
    (∀ (q : List Entry) (st : Stats), q ≠ [] → 1 ≤ cfg.batch_size →
      (process_batch cfg db now q st none).heap.length < q.length) ∧
    (1 ≤ cfg.batch_size →
      ∀ fuel (q : List Entry) (st : Stats) (acc : List PResult) (bn : ℕ),
        q.length ≤ fuel →
        (process_all_loop cfg db now fuel q st acc bn).2.2.2.2 = true) ∧
    (1 ≤ cfg.batch_size → ∀ (st : Stats) (debtors : List DebtorRec),
      (process_all_debtors cfg db now st debtors).2.2.2.2 = true) ∧
    (cfg.batch_size ≤ 0 →
      ∀ fuel (q : List Entry) (st : Stats) (acc : List PResult) (bn : ℕ),
        q ≠ [] →
        (process_all_loop cfg db now fuel q st acc bn).1 = q ∧
          (process_all_loop cfg db now fuel q st acc bn).2.2.2.2 = false) := by
  refine ⟨?_, ?_, ?_, ?_⟩
  · intro q st hq hbs
    exact process_batch_shrinks cfg db now q st hq hbs
  · intro hbs fuel q st acc bn hlen
    exact process_all_loop_halts cfg db now hbs fuel q st acc bn hlen
  · intro hbs st debtors
    exact process_all_loop_halts cfg db now hbs _ _ _ _ _ le_rfl
  · intro hbs fuel q st acc bn hq
    exact process_all_loop_stuck cfg db now hbs fuel q st acc bn hq

/-- C10 witness: batch size 1 drains a one-entry heap; batch size -1 leaves
    it untouched forever. -/
theorem c10_witness :
    (process_batch wcfg1 wdb "t" [(-1, 1)] stats0 none).heap.length <
        ([(-1, 1)] : List Entry).length ∧
      (process_all_debtors wcfg1 wdb "t" stats0 [wd3]).2.2.2.2 = true ∧
      ((process_all_loop wcfg0 wdb "t" 5 [(-1, 1)] stats0 [] 1).1 = [(-1, 1)] ∧
        (process_all_loop wcfg0 wdb "t" 5 [(-1, 1)] stats0 [] 1).2.2.2.2 =
          false) :=
  ⟨(c10_drain_termination wcfg1 wdb "t").1 [(-1, 1)] stats0 (by decide)
      (by decide),
   (c10_drain_termination wcfg1 wdb "t").2.2.1 (by decide) stats0 [wd3],
   (c10_drain_termination wcfg0 wdb "t").2.2.2 (by decide) 5 [(-1, 1)] stats0
      [] 1 (by decide)⟩

end SmartRecover
